import Mathlib

/-!
# Verification of the batch ingestion / embedding / vector-search pipeline

Shallow embedding, in Lean 4, of the Python sources under
`src/mongo-vcore-vector-search-python/src/`:

* `utils.py` — `insert_data` (batched bulk loader with per-batch error
  recovery) and `drop_vector_indexes` (swallow-all index dropper);
* `create_embeddings.py` — `process_embedding_batch` and the batching loop
  of `main`;
* `hnsw.py`, `diskann.py`, `ivf.py` — index creation and vector search.

External collaborators (the MongoDB driver and the Azure OpenAI embedding
service) are modelled as oracle parameters: each call that crosses the
process boundary is represented by an explicit outcome value (`Except` for
calls that may raise, plain functions for pure responses).  Python integers
are modelled as `Int`/`Nat` (they are unbounded), Python lists as `List`,
and printed output as an explicit log (`List String`) where a claim refers
to it.
-/

namespace CosmosVec

/-! ## Batching

Both batch loops in the sources iterate `for i in range(0, n, batch_size)`
and slice `data[i:i + batch_size]`:

* `utils.py`, `insert_data`, lines 216–217;
* `create_embeddings.py`, `main`, lines 144–145.

`batches b xs` lists the successive slices: `range(0, n, b)` yields the
start offsets `j * b` for `j < ⌈n/b⌉`, and each loop body takes the slice
`data[j*b : j*b + b]`.  A width of `0` makes Python's `range` raise
`ValueError`, so `batches 0` is given the junk value `[]` and every theorem
assumes `0 < b`.  `chunks k xs` is an equivalent recursive formulation
(chunk width `k + 1`) used for the inductive proofs. -/

def chunks (k : Nat) : List α → List (List α)
  | [] => []
  | x :: xs => ((x :: xs).take (k + 1)) :: chunks k (xs.drop k)
termination_by l => l.length
decreasing_by
  simp only [List.length_drop, List.length_cons]
  omega

def batches (b : Nat) (xs : List α) : List (List α) :=
  match b with
  | 0 => []
  | k + 1 =>
      (List.range ((xs.length + k) / (k + 1))).map
        (fun j => (xs.drop (j * (k + 1))).take (k + 1))

theorem chunks_nil (k : Nat) : chunks k ([] : List α) = [] := by
  simp [chunks]

theorem chunks_cons (k : Nat) (x : α) (xs : List α) :
    chunks k (x :: xs) = ((x :: xs).take (k + 1)) :: chunks k (xs.drop k) := by
  simp [chunks]

/-- Concatenating the slices recovers the input list. -/
theorem chunks_flatten (k : Nat) (xs : List α) : (chunks k xs).flatten = xs := by
  induction xs using chunks.induct k with
  | case1 => simp [chunks_nil]
  | case2 x xs ih =>
    rw [chunks_cons, List.flatten_cons, ih]
    have : xs.drop k = (x :: xs).drop (k + 1) := by simp
    rw [this, List.take_append_drop]

/-- There are `⌈n / (k+1)⌉` slices. -/
theorem chunks_length (k : Nat) (xs : List α) :
    (chunks k xs).length = (xs.length + k) / (k + 1) := by
  induction xs using chunks.induct k with
  | case1 =>
    simp only [chunks_nil, List.length_nil, Nat.zero_add]
    exact (Nat.div_eq_of_lt (by omega)).symm
  | case2 x xs ih =>
    rw [chunks_cons, List.length_cons, ih]
    simp only [List.length_drop, List.length_cons]
    rcases le_or_lt k xs.length with h | h
    · have h1 : xs.length - k + k = xs.length := by omega
      have h2 : xs.length + 1 + k = xs.length + (k + 1) := by omega
      rw [h1, h2, Nat.add_div_right _ (by omega)]
    · have h1 : xs.length - k = 0 := by omega
      have h2 : (0 + k) / (k + 1) = 0 := Nat.div_eq_of_lt (by omega)
      have h3 : xs.length + 1 + k = xs.length + (k + 1) := by omega
      rw [h1, h2, h3, Nat.add_div_right _ (by omega),
        Nat.div_eq_of_lt (show xs.length < k + 1 by omega)]

/-- `chunks` returns `[]` only on the empty list. -/
theorem chunks_eq_nil_iff (k : Nat) (xs : List α) : chunks k xs = [] ↔ xs = [] := by
  cases xs with
  | nil => simp [chunks_nil]
  | cons x xs => simp [chunks_cons]

/-- Every slice is nonempty and no longer than the chunk width. -/
theorem chunks_sizes (k : Nat) (xs : List α) :
    ∀ c ∈ chunks k xs, 0 < c.length ∧ c.length ≤ k + 1 := by
  induction xs using chunks.induct k with
  | case1 => simp [chunks_nil]
  | case2 x xs ih =>
    rw [chunks_cons]
    intro c hc
    rcases List.mem_cons.mp hc with h | h
    · subst h
      constructor
      · simp
      · simp
    · exact ih c h

/-- Every slice except possibly the last has length exactly the chunk width. -/
theorem chunks_dropLast_sizes (k : Nat) (xs : List α) :
    ∀ c ∈ (chunks k xs).dropLast, c.length = k + 1 := by
  induction xs using chunks.induct k with
  | case1 => simp [chunks_nil]
  | case2 x xs ih =>
    rw [chunks_cons]
    rcases eq_or_ne (chunks k (xs.drop k)) [] with h | h
    · simp [h]
    · rw [List.dropLast_cons_of_ne_nil h]
      intro c hc
      rcases List.mem_cons.mp hc with hh | hh
      · subst hh
        have hk : k < xs.length := by
          by_contra hk
          exact h ((chunks_eq_nil_iff k _).mpr (List.drop_eq_nil_of_le (by omega)))
        rw [List.length_take]
        simp only [List.length_cons]
        omega
      · exact ih c hh

/-- The `j`-th slice is exactly the Python slice `xs[j*(k+1) : j*(k+1)+(k+1)]`. -/
theorem chunks_getD (k : Nat) (xs : List α) (j : Nat) :
    (chunks k xs).getD j [] = (xs.drop (j * (k + 1))).take (k + 1) := by
  induction xs using chunks.induct k generalizing j with
  | case1 => simp [chunks_nil]
  | case2 x xs ih =>
    rw [chunks_cons]
    cases j with
    | zero => simp
    | succ j =>
      have h1 : (List.take (k + 1) (x :: xs) :: chunks k (xs.drop k)).getD (j + 1) [] =
          (chunks k (xs.drop k)).getD j [] := rfl
      rw [h1, ih, List.drop_drop]
      have h2 : (j + 1) * (k + 1) = (j * (k + 1) + k) + 1 := by ring
      rw [h2, List.drop_succ_cons]
      have h3 : k + j * (k + 1) = j * (k + 1) + k := by ring
      rw [h3]

/-- For positive widths the range-map form agrees with the recursive form. -/
theorem batches_succ_eq_chunks (k : Nat) (xs : List α) :
    batches (k + 1) xs = chunks k xs := by
  have hlen : (batches (k + 1) xs).length = (chunks k xs).length := by
    simp [batches, chunks_length]
  refine List.ext_get hlen ?_
  intro n h1 h2
  simp only [List.get_eq_getElem, batches, List.getElem_map, List.getElem_range]
  rw [← List.getD_eq_getElem (chunks k xs) [] h2, chunks_getD]

/-- Concatenating the batches recovers the input (positive width). -/
theorem batches_flatten (b : Nat) (hb : 0 < b) (xs : List α) :
    (batches b xs).flatten = xs := by
  obtain ⟨k, rfl⟩ : ∃ k, b = k + 1 := ⟨b - 1, by omega⟩
  rw [batches_succ_eq_chunks]
  exact chunks_flatten k xs

/-- C2: for every sequence of `n` documents and every positive batch size `b`,
the batching loop (`for i in range(0, n, b): batch = data[i:i+b]`, used both by
the embedding loop in `create_embeddings.main` and the insert loop in
`utils.insert_data`) splits the sequence into `⌈n/b⌉` consecutive slices
(`batches b xs`), the `j`-th slice being exactly `xs[j*b : j*b + b]`, each of
size `b` except possibly a shorter (nonempty) last one, preserving element
order and covering every element exactly once (their concatenation is the
input). -/
theorem batching_partitions (b : Nat) (xs : List α) (hb : 0 < b) :
    (batches b xs).flatten = xs ∧
    (batches b xs).length = (xs.length + b - 1) / b ∧
    (∀ j : Nat, (batches b xs).getD j [] = (xs.drop (j * b)).take b) ∧
    (∀ c ∈ batches b xs, 0 < c.length ∧ c.length ≤ b) ∧
    (∀ c ∈ (batches b xs).dropLast, c.length = b) := by
  obtain ⟨k, rfl⟩ : ∃ k, b = k + 1 := ⟨b - 1, by omega⟩
  have hbatch : batches (k + 1) xs = chunks k xs := batches_succ_eq_chunks k xs
  refine ⟨by rw [hbatch]; exact chunks_flatten k xs, ?_, ?_, ?_, ?_⟩
  · rw [hbatch, chunks_length]
    congr 1
  · intro j
    rw [hbatch]
    exact chunks_getD k xs j
  · rw [hbatch]
    exact chunks_sizes k xs
  · rw [hbatch]
    exact chunks_dropLast_sizes k xs

/-- Witness for `batching_partitions`: ten documents with batch size 4
(Scenario 1 of the specification: slices of sizes 4, 4, 2). -/
theorem batching_partitions_witness :
    0 < 4 ∧
      ((batches 4 [0, 1, 2, 3, 4, 5, 6, 7, 8, 9]).flatten
          = [0, 1, 2, 3, 4, 5, 6, 7, 8, 9] ∧
        (batches 4 [0, 1, 2, 3, 4, 5, 6, 7, 8, 9]).length = 3) :=
  ⟨by decide,
    (batching_partitions 4 [0, 1, 2, 3, 4, 5, 6, 7, 8, 9] (by decide)).1,
    by
      rw [(batching_partitions 4 [0, 1, 2, 3, 4, 5, 6, 7, 8, 9] (by decide)).2.1]
      decide⟩

/-! ## Bulk loader: `utils.insert_data` (lines 200–265)

The MongoDB driver call `collection.bulk_write(operations, ordered=False)`
inside the per-batch `try` block is modelled by a per-batch oracle
`BatchOutcome`:

* `success nInserted` — `bulk_write` returns; the code reads
  `result.inserted_count` (for insert-only unordered bulks pymongo raises
  `BulkWriteError` on any write failure, so on this branch the driver
  guarantees `inserted_count = len(batch)`; the embedding keeps the count
  abstract and theorems that need the guarantee assume it);
* `bulkError nInserted msgs` — `BulkWriteError` with
  `e.details['nInserted']` and the `errmsg` of each entry of
  `e.details['writeErrors']`;
* `failure` — any other exception.

Counters are `Int` since Python integers are unbounded and
`len(batch) - e.details.get('nInserted', 0)` is ordinary integer
subtraction.  Printed per-document error messages are collected in `log`. -/

inductive BatchOutcome where
  | success (nInserted : Nat)
  | bulkError (nInserted : Nat) (msgs : List String)
  | failure
deriving DecidableEq, Repr

structure LoadState where
  inserted : Int
  failed : Int
  log : List String
deriving DecidableEq, Repr

structure InsertStats where
  total : Nat
  inserted : Int
  failed : Int
  log : List String
deriving DecidableEq, Repr

/-- One iteration of the `for` loop body of `insert_data` (the
`try`/`except BulkWriteError`/`except Exception` block, lines 223–248). -/
def procBatch (st : LoadState) (batch : List α) (out : BatchOutcome) : LoadState :=
  match out with
  | .success n => { st with inserted := st.inserted + n }
  | .bulkError n msgs =>
      { st with
        inserted := st.inserted + n
        failed := st.failed + ((batch.length : Int) - (n : Int))
        log := st.log ++ msgs }
  | .failure => { st with failed := st.failed + (batch.length : Int) }

/-- The loop of `insert_data` over the remaining batches, `i` being the
index of the next batch (Python's `batch_num - 1`); `env` assigns to each
batch index the outcome of its `bulk_write` call. -/
def insertLoop (env : Nat → BatchOutcome) : Nat → List (List α) → LoadState → LoadState
  | _, [], st => st
  | i, batch :: rest, st => insertLoop env (i + 1) rest (procBatch st batch (env i))

/-- `utils.insert_data`: split `data` into batches, run the loop from the
zero state, and return the summary statistics (lines 200–265; the optional
`index_fields` pre-pass and the `time.sleep(0.1)` pacing do not touch the
counters and are omitted). -/
def insert_data (data : List α) (batch_size : Nat) (env : Nat → BatchOutcome) :
    InsertStats :=
  let st := insertLoop env 0 (batches batch_size data) ⟨0, 0, []⟩
  { total := data.length, inserted := st.inserted, failed := st.failed, log := st.log }

theorem insertLoop_nil (env : Nat → BatchOutcome) (i : Nat) (st : LoadState) :
    insertLoop env i ([] : List (List α)) st = st := rfl

theorem insertLoop_cons (env : Nat → BatchOutcome) (i : Nat) (batch : List α)
    (rest : List (List α)) (st : LoadState) :
    insertLoop env i (batch :: rest) st =
      insertLoop env (i + 1) rest (procBatch st batch (env i)) := rfl

/-- The loop processes a prefix of the batch list and then continues with
the rest from the accumulated state: no batch outcome aborts the run. -/
theorem insertLoop_append (env : Nat → BatchOutcome) (pre post : List (List α)) :
    ∀ (i : Nat) (st : LoadState),
      insertLoop env i (pre ++ post) st =
        insertLoop env (i + pre.length) post (insertLoop env i pre st) := by
  induction pre with
  | nil => intro i st; simp [insertLoop_nil]
  | cons batch rest ih =>
    intro i st
    rw [List.cons_append, insertLoop_cons, insertLoop_cons, ih]
    simp only [List.length_cons]
    congr 1
    omega

/-- Each loop iteration adds the batch length to `inserted + failed`,
provided a returning `bulk_write` reports the whole batch inserted. -/
theorem procBatch_inserted_add_failed (st : LoadState) (batch : List α)
    (out : BatchOutcome) (hs : ∀ n, out = .success n → n = batch.length) :
    (procBatch st batch out).inserted + (procBatch st batch out).failed =
      st.inserted + st.failed + (batch.length : Int) := by
  cases out with
  | success n => rw [hs n rfl]; simp [procBatch]; ring
  | bulkError n msgs => simp [procBatch]; ring
  | failure => simp [procBatch]; ring

/-- Running the loop adds the total size of the processed batches to
`inserted + failed` (assuming the driver guarantee on `success`). -/
theorem insertLoop_inserted_add_failed (env : Nat → BatchOutcome) :
    ∀ (bs : List (List α)) (i : Nat) (st : LoadState),
      (∀ j, j < bs.length → ∀ n, env (i + j) = .success n → n = (bs.getD j []).length) →
      (insertLoop env i bs st).inserted + (insertLoop env i bs st).failed =
        st.inserted + st.failed + (((bs.map List.length).sum : Nat) : Int) := by
  intro bs
  induction bs with
  | nil => intro i st _h; simp [insertLoop_nil]
  | cons batch rest ih =>
    intro i st hs
    rw [insertLoop_cons]
    have hrest : ∀ j, j < rest.length → ∀ n,
        env (i + 1 + j) = .success n → n = (rest.getD j []).length := by
      intro j hj n hn
      have h := hs (j + 1) (by simp; omega) n
        (by rw [show i + (j + 1) = i + 1 + j by omega]; exact hn)
      simpa using h
    rw [ih (i + 1) _ hrest]
    have h0 : ∀ n, env i = .success n → n = batch.length := by
      intro n hn
      have h := hs 0 (by simp) n (by simpa using hn)
      simpa using h
    rw [procBatch_inserted_add_failed st batch (env i) h0]
    simp only [List.map_cons, List.sum_cons]
    push_cast
    ring

/-- C1: for every input document list and every positive batch size,
`insert_data` returns statistics with `inserted + failed = total`
(`total` being the length of the input), whatever each batch does —
return normally (in which case pymongo reports the whole batch inserted),
raise `BulkWriteError` with any partial count, or raise any other
exception. -/
theorem insert_data_stats_invariant (data : List α) (b : Nat)
    (env : Nat → BatchOutcome) (hb : 0 < b)
    (hdriver : ∀ j, j < (batches b data).length → ∀ n,
      env j = .success n → n = ((batches b data).getD j []).length) :
    (insert_data data b env).inserted + (insert_data data b env).failed =
      ((insert_data data b env).total : Int) := by
  have h := insertLoop_inserted_add_failed env (batches b data) 0 ⟨0, 0, []⟩
    (by intro j hj n hn; exact hdriver j hj n (by simpa using hn))
  have hsum : ((batches b data).map List.length).sum = data.length := by
    rw [← List.length_flatten, batches_flatten b hb]
  rw [hsum] at h
  simpa [insert_data] using h

/-- Witness for `insert_data_stats_invariant`: five documents, batch size 2,
first batch fully inserted, second batch a partial `BulkWriteError`
(1 of 2 inserted), third batch failing outright; `3 + 2 = 5`. -/
theorem insert_data_stats_invariant_witness :
    (insert_data [10, 20, 30, 40, 50] 2
          (fun j => if j = 0 then .success 2
            else if j = 1 then .bulkError 1 ["E11000 duplicate key"]
            else .failure)).inserted
        + (insert_data [10, 20, 30, 40, 50] 2
          (fun j => if j = 0 then .success 2
            else if j = 1 then .bulkError 1 ["E11000 duplicate key"]
            else .failure)).failed
      = ((insert_data [10, 20, 30, 40, 50] 2
          (fun j => if j = 0 then .success 2
            else if j = 1 then .bulkError 1 ["E11000 duplicate key"]
            else .failure)).total : Int) := by
  apply insert_data_stats_invariant _ _ _ (by decide)
  intro j hj n hn
  have hj3 : j < 3 := by simpa [batches] using hj
  interval_cases j
  · simp at hn
    simp [batches, ← hn]
  · simp at hn
  · simp at hn

/-- Under an all-failure environment the loop inserts nothing, fails
everything, and still runs to completion. -/
theorem insertLoop_all_failure (env : Nat → BatchOutcome)
    (hf : ∀ j, env j = .failure) :
    ∀ (bs : List (List α)) (i : Nat) (st : LoadState),
      insertLoop env i bs st =
        ⟨st.inserted, st.failed + (((bs.map List.length).sum : Nat) : Int), st.log⟩ := by
  intro bs
  induction bs with
  | nil => intro i st; simp [insertLoop_nil]
  | cons batch rest ih =>
    intro i st
    rw [insertLoop_cons, hf i]
    show insertLoop env (i + 1) rest (procBatch st batch .failure) = _
    rw [ih]
    simp only [procBatch, List.map_cons, List.sum_cons, LoadState.mk.injEq]
    refine ⟨trivial, ?_, trivial⟩
    push_cast
    ring

/-- C4: a batch whose `bulk_write` raises `BulkWriteError` adds the
driver-reported `nInserted` to `inserted`, the batch length minus
`nInserted` to `failed`, appends the per-document `errmsg` entries to the
printed log, and the loop then continues with the next batch from exactly
that accumulated state. -/
theorem insert_data_partial_failure_step (st : LoadState) (batch : List α)
    (n : Nat) (msgs : List String) (env : Nat → BatchOutcome) (i : Nat)
    (rest : List (List α)) (h : env i = .bulkError n msgs) :
    procBatch st batch (env i) =
        ⟨st.inserted + (n : Int), st.failed + ((batch.length : Int) - (n : Int)),
          st.log ++ msgs⟩ ∧
      insertLoop env i (batch :: rest) st =
        insertLoop env (i + 1) rest
          ⟨st.inserted + (n : Int), st.failed + ((batch.length : Int) - (n : Int)),
            st.log ++ msgs⟩ := by
  constructor
  · rw [h]; rfl
  · rw [insertLoop_cons, h]; rfl

/-- Witness for `insert_data_partial_failure_step`: a batch of 5 documents
with 4 inserted and one duplicate-key message (Scenario 2 of the
specification), starting from the zero state. -/
theorem insert_data_partial_failure_step_witness :
    procBatch (⟨0, 0, []⟩ : LoadState) [1, 2, 3, 4, 5]
        (BatchOutcome.bulkError 4 ["E11000 duplicate key"]) =
        ⟨(0 : Int) + ((4 : Nat) : Int), (0 : Int) + (((5 : Nat) : Int) - ((4 : Nat) : Int)),
          [] ++ ["E11000 duplicate key"]⟩ ∧
      insertLoop (fun _ : Nat => BatchOutcome.bulkError 4 ["E11000 duplicate key"]) 0
          [[1, 2, 3, 4, 5]] ⟨0, 0, []⟩ =
        insertLoop (fun _ : Nat => BatchOutcome.bulkError 4 ["E11000 duplicate key"]) (0 + 1)
          ([] : List (List Nat))
          ⟨(0 : Int) + ((4 : Nat) : Int), (0 : Int) + (((5 : Nat) : Int) - ((4 : Nat) : Int)),
            [] ++ ["E11000 duplicate key"]⟩ := by
  exact insert_data_partial_failure_step ⟨0, 0, []⟩ [1, 2, 3, 4, 5] 4
    ["E11000 duplicate key"] (fun _ : Nat => BatchOutcome.bulkError 4 ["E11000 duplicate key"])
    0 [] rfl

/-- C5: a batch whose `bulk_write` raises any non-`BulkWriteError`
exception counts the entire batch as failed and the loop continues with
the next batch; the run is never aborted — `insert_data` always returns
aggregate statistics with `total` the input length, and even when every
batch fails it completes with `inserted = 0` and `failed = total`. -/
theorem insert_data_total_failure_policy (data : List α) (b : Nat)
    (env : Nat → BatchOutcome) (st : LoadState) (batch : List α) (i : Nat)
    (rest : List (List α)) (hb : 0 < b) (h : env i = .failure) :
    procBatch st batch (env i) =
        ⟨st.inserted, st.failed + (batch.length : Int), st.log⟩ ∧
      insertLoop env i (batch :: rest) st =
        insertLoop env (i + 1) rest
          ⟨st.inserted, st.failed + (batch.length : Int), st.log⟩ ∧
      (insert_data data b env).total = data.length ∧
      ((∀ j, env j = .failure) →
        insert_data data b env = ⟨data.length, 0, (data.length : Int), []⟩) := by
  refine ⟨by rw [h]; rfl, by rw [insertLoop_cons, h]; rfl, rfl, ?_⟩
  intro hall
  have hrun := insertLoop_all_failure env hall (batches b data) 0 ⟨0, 0, []⟩
  have hsum : ((batches b data).map List.length).sum = data.length := by
    rw [← List.length_flatten, batches_flatten b hb]
  rw [hsum] at hrun
  simp only [insert_data, hrun]
  simp

/-- Witness for `insert_data_total_failure_policy`: three documents, batch
size 2, every batch failing outright; the run completes with
`{total := 3, inserted := 0, failed := 3}`. -/
theorem insert_data_total_failure_policy_witness :
    procBatch (⟨0, 0, []⟩ : LoadState) [7, 8] BatchOutcome.failure =
        ⟨(0 : Int), (0 : Int) + ((2 : Nat) : Int), []⟩ ∧
      insertLoop (fun _ : Nat => BatchOutcome.failure) 0 [[7, 8], [9]] ⟨0, 0, []⟩ =
        insertLoop (fun _ : Nat => BatchOutcome.failure) (0 + 1) [[9]]
          ⟨(0 : Int), (0 : Int) + ((2 : Nat) : Int), []⟩ ∧
      (insert_data [7, 8, 9] 2 (fun _ : Nat => BatchOutcome.failure)).total = 3 ∧
      insert_data [7, 8, 9] 2 (fun _ : Nat => BatchOutcome.failure) =
        ⟨3, 0, (3 : Int), []⟩ := by
  have h := insert_data_total_failure_policy [7, 8, 9] 2
    (fun _ : Nat => BatchOutcome.failure) ⟨0, 0, []⟩ [7, 8] 0 [[9]] (by decide) rfl
  exact ⟨h.1, h.2.1, h.2.2.1, h.2.2.2 (fun j => rfl)⟩

/-! ## Embedding batcher: `create_embeddings.process_embedding_batch` (lines 58–97)

A document is reduced to the two fields the function touches: the value of
`field_to_embed` (`text`, absent field = `none`) and the value of
`embedded_field` (`vec`).  Python's eligibility test
`field_to_embed in document and document[field_to_embed]` is field presence
plus string truthiness, i.e. present and non-empty (`textOk`).  The vector
scalar type `V` is a parameter (the real payload is a list of floats; no
claim depends on the numeric content).  The Azure OpenAI call
`create_embeddings(texts, client, model)` is the oracle
`embed : List String → List V`.

`process_embedding_batch` returns the updated batch together with the list
of arguments of every `embed` invocation it performed (so "the service is
never called" is the second component being `[]`).  If the service returned
fewer vectors than texts Python would raise `IndexError` in the write-back
loop; the embedding truncates instead (`List.zip`), and every theorem about
the write-back assumes the documented one-vector-per-text contract. -/

structure Doc (V : Type) where
  text : Option String
  vec : Option V
deriving DecidableEq, Repr

instance {V : Type} : Inhabited (Doc V) := ⟨⟨none, none⟩⟩

/-- `field_to_embed in document and document[field_to_embed]` (line 81). -/
def textOk {V : Type} (d : Doc V) : Bool :=
  match d.text with
  | some s => decide (s ≠ "")
  | none => false

/-- The scan of lines 80–85: build `texts_to_embed` and `indices_with_text`
in document order, `i` being the enumeration index of the first document. -/
def collectTexts {V : Type} : Nat → List (Doc V) → List String × List Nat
  | _, [] => ([], [])
  | i, d :: ds =>
    let r := collectTexts (i + 1) ds
    if textOk d then (d.text.getD "" :: r.1, i :: r.2) else r

/-- `data_batch[doc_idx][embedded_field] = v` (line 93). -/
def setVecAt {V : Type} (v : V) : Nat → List (Doc V) → List (Doc V)
  | _, [] => []
  | 0, d :: ds => { d with vec := some v } :: ds
  | n + 1, d :: ds => d :: setVecAt v n ds

/-- The write-back loop of lines 92–93 over `(doc_idx, vector)` pairs. -/
def assignVecs {V : Type} : List (Nat × V) → List (Doc V) → List (Doc V)
  | [], batch => batch
  | (i, v) :: rest, batch => assignVecs rest (setVecAt v i batch)

/-- `create_embeddings.process_embedding_batch` (lines 58–97). -/
def process_embedding_batch {V : Type} (embed : List String → List V)
    (batch : List (Doc V)) : List (Doc V) × List (List String) :=
  let r := collectTexts 0 batch
  if r.1.isEmpty then (batch, [])
  else (assignVecs (r.2.zip (embed r.1)) batch, [r.1])

/-- Specification-side recursion: walk the batch once, consuming one vector
per eligible document.  Proved equal to the index-based write-back below. -/
def applyEmbs {V : Type} : List V → List (Doc V) → List (Doc V)
  | _, [] => []
  | [], d :: ds => d :: ds
  | v :: vs, d :: ds =>
    if textOk d then { d with vec := some v } :: applyEmbs vs ds
    else d :: applyEmbs (v :: vs) ds

/-- The texts collected by the scan, in document order. -/
def textsOf {V : Type} : List (Doc V) → List String
  | [] => []
  | d :: ds => if textOk d then d.text.getD "" :: textsOf ds else textsOf ds

/-- The positions (relative to the start of the batch) of the eligible
documents, in increasing order. -/
def idxsOf {V : Type} : List (Doc V) → List Nat
  | [] => []
  | d :: ds =>
    if textOk d then 0 :: (idxsOf ds).map (· + 1) else (idxsOf ds).map (· + 1)

theorem comp_add_one_add (i : Nat) :
    ((fun x => x + i) ∘ fun x : Nat => x + 1) = fun x : Nat => x + (i + 1) := by
  funext a
  simp [Function.comp]
  omega

/-- The single-pass scan computes exactly the texts and the eligible
positions shifted by the starting enumeration index. -/
theorem collectTexts_eq {V : Type} (xs : List (Doc V)) :
    ∀ i, collectTexts i xs = (textsOf xs, (idxsOf xs).map (· + i)) := by
  induction xs with
  | nil => intro i; simp [collectTexts, textsOf, idxsOf]
  | cons d ds ih =>
    intro i
    simp only [collectTexts]
    rw [ih (i + 1)]
    by_cases h : textOk d <;>
        simp [h, textsOf, idxsOf, List.map_map, comp_add_one_add] <;>
      exact fun a _ => by omega

theorem collectTexts_zero {V : Type} (xs : List (Doc V)) :
    collectTexts 0 xs = (textsOf xs, idxsOf xs) := by
  rw [collectTexts_eq xs 0]
  simp

theorem textsOf_nil_iff {V : Type} (xs : List (Doc V)) :
    textsOf xs = [] ↔ ∀ d ∈ xs, textOk d = false := by
  induction xs with
  | nil => simp [textsOf]
  | cons d ds ih =>
    by_cases h : textOk d
    · simp [textsOf, h]
    · simp [textsOf, h, ih]

theorem textsOf_length {V : Type} (xs : List (Doc V)) :
    (textsOf xs).length = xs.countP (fun d => textOk d) := by
  induction xs with
  | nil => simp [textsOf]
  | cons d ds ih =>
    by_cases h : textOk d <;> simp [textsOf, List.countP_cons, h, ih]

theorem idxsOf_length {V : Type} (xs : List (Doc V)) :
    (idxsOf xs).length = xs.countP (fun d => textOk d) := by
  induction xs with
  | nil => simp [idxsOf]
  | cons d ds ih =>
    by_cases h : textOk d <;> simp [idxsOf, List.countP_cons, h, ih]

theorem setVecAt_succ_cons {V : Type} (v : V) (n : Nat) (d : Doc V)
    (ds : List (Doc V)) : setVecAt v (n + 1) (d :: ds) = d :: setVecAt v n ds := rfl

theorem setVecAt_zero_cons {V : Type} (v : V) (d : Doc V) (ds : List (Doc V)) :
    setVecAt v 0 (d :: ds) = { d with vec := some v } :: ds := rfl

theorem assignVecs_cons {V : Type} (i : Nat) (v : V) (rest : List (Nat × V))
    (batch : List (Doc V)) :
    assignVecs ((i, v) :: rest) batch = assignVecs rest (setVecAt v i batch) := rfl

theorem assignVecs_shift {V : Type} (pairs : List (Nat × V)) :
    ∀ (d : Doc V) (ds : List (Doc V)),
      assignVecs (pairs.map (fun p => (p.1 + 1, p.2))) (d :: ds) =
        d :: assignVecs pairs ds := by
  induction pairs with
  | nil => intro d ds; rfl
  | cons p rest ih =>
    intro d ds
    cases p with
    | mk i v =>
      simp only [List.map_cons, assignVecs_cons, setVecAt_succ_cons]
      exact ih d (setVecAt v i ds)

theorem zip_map_add_one {V : Type} (l : List Nat) :
    ∀ es : List V,
      (l.map (· + 1)).zip es = (l.zip es).map (fun p => (p.1 + 1, p.2)) := by
  induction l with
  | nil => intro es; simp
  | cons i rest ih =>
    intro es
    cases es with
    | nil => simp
    | cons e es => simp [ih es]

theorem applyEmbs_nil_vecs {V : Type} (ds : List (Doc V)) :
    applyEmbs [] ds = ds := by
  cases ds <;> rfl

theorem applyEmbs_cons_not_ok {V : Type} (es : List V) (d : Doc V)
    (ds : List (Doc V)) (h : textOk d = false) :
    applyEmbs es (d :: ds) = d :: applyEmbs es ds := by
  cases es with
  | nil => rw [applyEmbs_nil_vecs, applyEmbs_nil_vecs]
  | cons e es => simp [applyEmbs, h]

theorem applyEmbs_no_eligible {V : Type} (bs : List (Doc V)) :
    ∀ es : List V, (∀ d ∈ bs, textOk d = false) → applyEmbs es bs = bs := by
  induction bs with
  | nil => intro es _; cases es <;> rfl
  | cons d ds ih =>
    intro es h
    rw [applyEmbs_cons_not_ok es d ds (h d (by simp)), ih es (by
      intro x hx
      exact h x (by simp [hx]))]

/-- The positional write-back of `process_embedding_batch` is the one-pass
consumption `applyEmbs`. -/
theorem assignVecs_eq_applyEmbs {V : Type} (batch : List (Doc V)) :
    ∀ es : List V,
      assignVecs ((idxsOf batch).zip es) batch = applyEmbs es batch := by
  induction batch with
  | nil => intro es; cases es <;> rfl
  | cons d ds ih =>
    intro es
    by_cases h : textOk d
    · rw [show idxsOf (d :: ds) = 0 :: (idxsOf ds).map (· + 1) by simp [idxsOf, h]]
      cases es with
      | nil =>
        simp only [List.zip_nil_right]
        rw [applyEmbs_nil_vecs]
        rfl
      | cons e es =>
        rw [List.zip_cons_cons, assignVecs_cons, setVecAt_zero_cons,
          zip_map_add_one, assignVecs_shift, ih es]
        simp [applyEmbs, h]
    · rw [show idxsOf (d :: ds) = (idxsOf ds).map (· + 1) by simp [idxsOf, h]]
      rw [zip_map_add_one, assignVecs_shift, ih es,
        applyEmbs_cons_not_ok es d ds (by simpa using h)]

/-- The document list returned by `process_embedding_batch`, in one-pass
form (both the no-text early exit and the write-back branch). -/
theorem process_embedding_batch_fst {V : Type} (embed : List String → List V)
    (batch : List (Doc V)) :
    (process_embedding_batch embed batch).1 =
      applyEmbs (embed (textsOf batch)) batch := by
  simp only [process_embedding_batch, collectTexts_zero]
  by_cases h : (textsOf batch).isEmpty
  · rw [if_pos h]
    have hall : ∀ d ∈ batch, textOk d = false :=
      (textsOf_nil_iff batch).mp (List.isEmpty_iff.mp h)
    exact (applyEmbs_no_eligible batch _ hall).symm
  · rw [if_neg h]
    exact assignVecs_eq_applyEmbs batch _

theorem getD_map_add_one (l : List Nat) (k : Nat) (hk : k < l.length) :
    (l.map (· + 1)).getD k 0 = l.getD k 0 + 1 := by
  rw [List.getD_eq_getElem _ _ (by simpa using hk), List.getElem_map,
    List.getD_eq_getElem _ _ hk]

theorem getD_vec_none {V : Type} (ds : List (Doc V))
    (h : ∀ d ∈ ds, d.vec = none) (j : Nat) : (ds.getD j default).vec = none := by
  rcases lt_or_ge j ds.length with hj | hj
  · rw [List.getD_eq_getElem _ _ hj]
    exact h _ (List.getElem_mem hj)
  · rw [List.getD_eq_default _ _ hj]
    rfl

/-- The write-back never adds or removes documents. -/
theorem applyEmbs_length {V : Type} (bs : List (Doc V)) :
    ∀ es : List V, (applyEmbs es bs).length = bs.length := by
  induction bs with
  | nil => intro es; cases es <;> rfl
  | cons d ds ih =>
    intro es
    cases es with
    | nil => rw [applyEmbs_nil_vecs]
    | cons e es =>
      by_cases h : textOk d <;> simp [applyEmbs, h, ih]

/-- With one vector per eligible document, a document carries a vector
after the write-back exactly when it is eligible (given that no input
document already carried one). -/
theorem applyEmbs_getD_isSome {V : Type} (bs : List (Doc V)) :
    ∀ es : List V, (∀ d ∈ bs, d.vec = none) →
      es.length = bs.countP (fun d => textOk d) →
      ∀ i, i < bs.length →
        ((applyEmbs es bs).getD i default).vec.isSome = textOk (bs.getD i default) := by
  induction bs with
  | nil => intro es _ _ i hi; simp at hi
  | cons d ds ih =>
    intro es hnv hlen i hi
    have hnv' : ∀ x ∈ ds, x.vec = none := fun x hx => hnv x (by simp [hx])
    by_cases h : textOk d
    · cases es with
      | nil => simp [List.countP_cons, h] at hlen
      | cons e es =>
        have hlen' : es.length = ds.countP (fun x => textOk x) := by
          simp [List.countP_cons, h] at hlen
          omega
        cases i with
        | zero => simp [applyEmbs, h]
        | succ i =>
          have hi' : i < ds.length := by simpa using hi
          simp only [applyEmbs, h, if_true, List.getD_cons_succ]
          exact ih es hnv' hlen' i hi'
    · have hlen' : es.length = ds.countP (fun x => textOk x) := by
        simpa [List.countP_cons, h] using hlen
      rw [applyEmbs_cons_not_ok es d ds (by simpa using h)]
      cases i with
      | zero =>
        simp only [List.getD_cons_zero]
        rw [hnv d (by simp)]
        simp [h]
      | succ i =>
        have hi' : i < ds.length := by simpa using hi
        simp only [List.getD_cons_succ]
        exact ih es hnv' hlen' i hi'

/-- The `k`-th vector handed back by the service lands on the `k`-th
eligible document (and a missing vector leaves the document bare). -/
theorem applyEmbs_positional {V : Type} (bs : List (Doc V)) :
    ∀ es : List V, (∀ d ∈ bs, d.vec = none) →
      ∀ k, k < (idxsOf bs).length →
        ((applyEmbs es bs).getD ((idxsOf bs).getD k 0) default).vec = es.get? k := by
  induction bs with
  | nil => intro es _ k hk; simp [idxsOf] at hk
  | cons d ds ih =>
    intro es hnv k hk
    have hnv' : ∀ x ∈ ds, x.vec = none := fun x hx => hnv x (by simp [hx])
    by_cases h : textOk d
    · rw [show idxsOf (d :: ds) = 0 :: (idxsOf ds).map (· + 1)
        by simp [idxsOf, h]] at hk ⊢
      cases es with
      | nil =>
        rw [applyEmbs_nil_vecs]
        cases k with
        | zero =>
          simp only [List.getD_cons_zero]
          rw [hnv d (by simp)]
          simp
        | succ k =>
          have hk' : k < (idxsOf ds).length := by simpa using hk
          rw [show (0 :: (idxsOf ds).map (· + 1)).getD (k + 1) 0 =
              ((idxsOf ds).map (· + 1)).getD k 0 from rfl,
            getD_map_add_one _ _ hk', List.getD_cons_succ]
          rw [getD_vec_none ds hnv' _]
          simp
      | cons e es =>
        simp only [applyEmbs, h, if_true]
        cases k with
        | zero => simp
        | succ k =>
          have hk' : k < (idxsOf ds).length := by simpa using hk
          rw [show (0 :: (idxsOf ds).map (· + 1)).getD (k + 1) 0 =
              ((idxsOf ds).map (· + 1)).getD k 0 from rfl,
            getD_map_add_one _ _ hk', List.getD_cons_succ]
          exact ih es hnv' k hk'
    · rw [show idxsOf (d :: ds) = (idxsOf ds).map (· + 1)
        by simp [idxsOf, h]] at hk ⊢
      have hk' : k < (idxsOf ds).length := by simpa using hk
      rw [applyEmbs_cons_not_ok es d ds (by simpa using h),
        getD_map_add_one _ _ hk', List.getD_cons_succ]
      exact ih es hnv' k hk'

/-- With one vector per eligible document and no pre-existing vectors, the
number of documents carrying a vector afterwards is the number of eligible
documents. -/
theorem applyEmbs_countP {V : Type} (bs : List (Doc V)) :
    ∀ es : List V, (∀ d ∈ bs, d.vec = none) →
      es.length = bs.countP (fun d => textOk d) →
      (applyEmbs es bs).countP (fun d => d.vec.isSome) =
        bs.countP (fun d => textOk d) := by
  induction bs with
  | nil => intro es _ _; cases es <;> simp [applyEmbs]
  | cons d ds ih =>
    intro es hnv hlen
    have hnv' : ∀ x ∈ ds, x.vec = none := fun x hx => hnv x (by simp [hx])
    by_cases h : textOk d
    · cases es with
      | nil => simp [List.countP_cons, h] at hlen
      | cons e es =>
        have hlen' : es.length = ds.countP (fun x => textOk x) := by
          simp [List.countP_cons, h] at hlen
          omega
        simp [applyEmbs, h, List.countP_cons, ih es hnv' hlen']
    · have hlen' : es.length = ds.countP (fun x => textOk x) := by
        simpa [List.countP_cons, h] using hlen
      rw [applyEmbs_cons_not_ok es d ds (by simpa using h)]
      have hd : d.vec = none := hnv d (by simp)
      simp [List.countP_cons, h, hd, ih es hnv' hlen']

/-- C3, counterexample to the claim as stated: `process_embedding_batch`
only ever adds the embedded field, so a document that already carries the
vector field but has no text keeps the vector — after the run it carries
the embedded field although its text field was absent, violating the
claimed "if and only if".  (The embedding service here is one-vector-per-
text and order-preserving, as the claim requires.) -/
theorem process_embedding_batch_iff_cex :
    ((process_embedding_batch (fun ts => ts.map (fun _ => (0 : Nat)))
          [{ text := none, vec := some 7 }]).1.getD 0 default).vec.isSome
      ≠ textOk (([{ text := none, vec := some 7 }] : List (Doc Nat)).getD 0 default) := by
  decide

/-- C3 (amended): provided no document of the batch already carries the
embedded vector field on input, and the embedding service returns one
vector per input text (order-preserving), after `process_embedding_batch`
a document carries the vector field if and only if its text field was
present and non-empty on input; the `k`-th returned vector is assigned to
the `k`-th eligible document in batch order (`collectTexts 0 batch` is the
`(texts_to_embed, indices_with_text)` pair of the source scan); and the
count of enriched documents equals the count of eligible documents. -/
theorem process_embedding_batch_spec {V : Type} (embed : List String → List V)
    (batch : List (Doc V))
    (hservice : (embed (collectTexts 0 batch).1).length
      = (collectTexts 0 batch).1.length)
    (hfresh : ∀ d ∈ batch, d.vec = none) :
    (process_embedding_batch embed batch).1.length = batch.length ∧
    (∀ i, i < batch.length →
      ((process_embedding_batch embed batch).1.getD i default).vec.isSome
        = textOk (batch.getD i default)) ∧
    (∀ k, k < (collectTexts 0 batch).2.length →
      ((process_embedding_batch embed batch).1.getD
          ((collectTexts 0 batch).2.getD k 0) default).vec
        = (embed (collectTexts 0 batch).1).get? k) ∧
    (process_embedding_batch embed batch).1.countP (fun d => d.vec.isSome)
      = batch.countP (fun d => textOk d) := by
  rw [collectTexts_zero, process_embedding_batch_fst embed batch]
  have hlen : (embed (textsOf batch)).length = batch.countP (fun d => textOk d) := by
    have h := hservice
    rw [collectTexts_zero] at h
    rw [h, textsOf_length]
  exact ⟨applyEmbs_length batch _,
    applyEmbs_getD_isSome batch _ hfresh hlen,
    applyEmbs_positional batch _ hfresh,
    applyEmbs_countP batch _ hfresh hlen⟩

/-- Witness for `process_embedding_batch_spec`: a batch of three fresh
documents of which the first and third are eligible; both hypotheses hold
and, e.g., the batch keeps its length and exactly two documents are
enriched. -/
theorem process_embedding_batch_spec_witness :
    (process_embedding_batch (fun ts => ts.map (fun _ => (0 : Nat)))
        [{ text := some "a", vec := none }, { text := none, vec := none },
          { text := some "b", vec := none }]).1.length = 3 ∧
      (process_embedding_batch (fun ts => ts.map (fun _ => (0 : Nat)))
        [{ text := some "a", vec := none }, { text := none, vec := none },
          { text := some "b", vec := none }]).1.countP (fun d => d.vec.isSome) = 2 := by
  have h := process_embedding_batch_spec (fun ts => ts.map (fun _ => (0 : Nat)))
    [{ text := some "a", vec := none }, { text := none, vec := none },
      { text := some "b", vec := none }] (by decide) (by decide)
  refine ⟨by rw [h.1]; rfl, by rw [h.2.2.2]; decide⟩

/-- C9: on a batch in which no document has a present, non-empty text
field, `process_embedding_batch` makes no call to the embedding service
(its call list is empty — in particular `embed` is never invoked with an
empty text list) and returns every document unmodified. -/
theorem process_embedding_batch_no_eligible_noop {V : Type}
    (embed : List String → List V) (batch : List (Doc V))
    (h : ∀ d ∈ batch, textOk d = false) :
    process_embedding_batch embed batch = (batch, []) := by
  have hnil : textsOf batch = [] := (textsOf_nil_iff batch).mpr h
  simp [process_embedding_batch, collectTexts_zero, hnil]

/-- Witness for `process_embedding_batch_no_eligible_noop`: one document
with an empty text and one with the text field absent (the latter already
carrying a vector); nothing is embedded and the batch is returned as is. -/
theorem process_embedding_batch_no_eligible_noop_witness :
    process_embedding_batch (fun ts => ts.map (fun _ => (0 : Nat)))
        [{ text := some "", vec := none }, { text := none, vec := some 3 }]
      = ([{ text := some "", vec := none }, { text := none, vec := some 3 }], []) :=
  process_embedding_batch_no_eligible_noop _ _ (by decide)

/-! ## Index lifecycle: `utils.drop_vector_indexes` (lines 268–302)

An index descriptor is reduced to its `name` and its `key` mapping
(field → marker, as strings: ordinary indexes carry `"1"`/`"-1"`, vector
indexes the marker `"cosmosSearch"`; a descriptor without a `'key'` entry
behaves like one with an empty mapping for this code).  The driver calls
`collection.list_indexes()` and `collection.drop_index(name)` are oracles:
`listO` is the outcome of listing, `dropO name` the outcome of each drop.
The whole body sits in one `try`, so the first failing drop aborts the
remaining drops; the `except` swallows every error and only prints a
warning.  `DropResult.raised` is what propagates to the caller. -/

structure IndexDescr where
  name : String
  key : List (String × String)
deriving DecidableEq, Repr

/-- `'key' in index and vector_field in index['key'] and
index['key'][vector_field] == 'cosmosSearch'` (lines 286–287). -/
def isVectorIndexOn (vector_field : String) (ix : IndexDescr) : Bool :=
  match ix.key.lookup vector_field with
  | some marker => decide (marker = "cosmosSearch")
  | none => false

/-- The drop loop (lines 291–293): names dropped so far, stopping at the
first failing `drop_index`. -/
def dropSeq (dropO : String → Except String Unit) :
    List String → Except (List String × String) (List String)
  | [] => .ok []
  | n :: ns =>
    match dropO n with
    | .error e => .error ([], e)
    | .ok _ =>
      match dropSeq dropO ns with
      | .ok ds => .ok (n :: ds)
      | .error (ds, e) => .error (n :: ds, e)

structure DropResult where
  dropped : List String
  warning : Option String
  raised : Option String
deriving DecidableEq, Repr

/-- `utils.drop_vector_indexes` (lines 268–302): list, filter to the
vector indexes on `vector_field`, drop each; any error anywhere is caught
and turned into a printed warning. -/
def drop_vector_indexes (vector_field : String)
    (listO : Except String (List IndexDescr))
    (dropO : String → Except String Unit) : DropResult :=
  match listO with
  | .error e => { dropped := [], warning := some e, raised := none }
  | .ok indexes =>
    let vectorIndexes :=
      (indexes.filter (isVectorIndexOn vector_field)).map (fun ix => ix.name)
    match dropSeq dropO vectorIndexes with
    | .ok ds => { dropped := ds, warning := none, raised := none }
    | .error (ds, e) => { dropped := ds, warning := some e, raised := none }

/-- C6: `drop_vector_indexes` never raises — whatever the listing and the
individual drops do, nothing propagates to the caller (failures only
produce a warning) — and on a collection with no matching vector index
(e.g. a fresh collection) it completes successfully as a no-op, dropping
nothing and warning about nothing. -/
theorem drop_vector_indexes_never_raises (vector_field : String)
    (listO : Except String (List IndexDescr))
    (dropO : String → Except String Unit) :
    (drop_vector_indexes vector_field listO dropO).raised = none ∧
    (∀ indexes, listO = .ok indexes →
      indexes.filter (isVectorIndexOn vector_field) = [] →
      drop_vector_indexes vector_field listO dropO =
        { dropped := [], warning := none, raised := none }) := by
  constructor
  · cases listO with
    | error e => rfl
    | ok indexes =>
      simp only [drop_vector_indexes]
      cases hds : dropSeq dropO
          ((indexes.filter (isVectorIndexOn vector_field)).map (fun ix => ix.name)) with
      | ok ds => rfl
      | error p => cases p; rfl
  · intro indexes hlist hfilt
    subst hlist
    simp [drop_vector_indexes, hfilt, dropSeq]

/-- Witness for `drop_vector_indexes_never_raises`: a fresh collection
carrying only the default `_id_` index; even with a failing `drop_index`
oracle nothing is raised and nothing is dropped. -/
theorem drop_vector_indexes_never_raises_witness :
    (drop_vector_indexes "DescriptionVector"
          (Except.ok [{ name := "_id_", key := [("_id", "1")] }])
          (fun n => Except.error ("index not found: " ++ n))).raised = none ∧
      drop_vector_indexes "DescriptionVector"
          (Except.ok [{ name := "_id_", key := [("_id", "1")] }])
          (fun n => Except.error ("index not found: " ++ n)) =
        { dropped := [], warning := none, raised := none } := by
  have h := drop_vector_indexes_never_raises "DescriptionVector"
    (Except.ok [{ name := "_id_", key := [("_id", "1")] }])
    (fun n => Except.error ("index not found: " ++ n))
  exact ⟨h.1, h.2 _ rfl (by decide)⟩

/-! ## Index creation: `hnsw.create_hnsw_vector_index` (lines 10–55),
`diskann.create_diskann_vector_index` (lines 18–89)

The `createIndexes` command document is modelled by `IndexCommandSpec`;
`cmdO` is the outcome of `collection.database.command(index_command)`.
Both creators first call `drop_vector_indexes` (never raising, see above),
then run the command; on failure they print an error line — the DiskANN
variant additionally prints remediation guidance when `str(e)` contains
the tier-limitation phrase — and re-raise the same exception (`raise`
with no argument). -/

structure IndexCommandSpec where
  indexName : String
  keyField : String
  keyMarker : String
  kind : String
  dimensions : Nat
  similarity : String
  params : List (String × Nat)
deriving DecidableEq, Repr

/-- The `index_command` literal of `diskann.py` lines 36–64. -/
def diskannIndexCommand (vector_field : String) (dimensions : Nat) :
    IndexCommandSpec :=
  { indexName := "diskann_index_" ++ vector_field
    keyField := vector_field
    keyMarker := "cosmosSearch"
    kind := "vector-diskann"
    dimensions := dimensions
    similarity := "COS"
    params := [("maxDegree", 20), ("lBuild", 10)] }

/-- The `index_command` literal of `hnsw.py` lines 18–46. -/
def hnswIndexCommand (vector_field : String) (dimensions : Nat) :
    IndexCommandSpec :=
  { indexName := "hnsw_index_" ++ vector_field
    keyField := vector_field
    keyMarker := "cosmosSearch"
    kind := "vector-hnsw"
    dimensions := dimensions
    similarity := "COS"
    params := [("m", 16), ("efConstruction", 64)] }

/-- The `index_command` literal of `ivf.py` lines 36–61. -/
def ivfIndexCommand (vector_field : String) (dimensions : Nat) :
    IndexCommandSpec :=
  { indexName := "ivf_index_" ++ vector_field
    keyField := vector_field
    keyMarker := "cosmosSearch"
    kind := "vector-ivf"
    dimensions := dimensions
    similarity := "COS"
    params := [("numLists", 10)] }

/-- Python's `needle in str(e)` substring test (over the character
sequences of the two strings). -/
def containsSubstring (needle hay : String) : Bool :=
  (List.range (hay.data.length + 1)).any
    (fun i => needle.data.isPrefixOf (hay.data.drop i))

/-- The phrase tested at `diskann.py` line 83. -/
def tierLimitationMsg : String := "not enabled for this cluster tier"

/-- The remediation lines printed by `diskann.py` lines 84–88. -/
def diskannRemediation : List String :=
  ["DiskANN indexes require a higher cluster tier.",
    "Try one of these alternatives:",
    "  - Upgrade your Cosmos DB cluster to a higher tier",
    "  - Use HNSW instead: python src/hnsw.py",
    "  - Use IVF instead: python src/ivf.py"]

/-- `diskann.create_diskann_vector_index`: returns the printed log and
what propagates to the caller. -/
def create_diskann_vector_index (vector_field : String) (dimensions : Nat)
    (listO : Except String (List IndexDescr))
    (dropO : String → Except String Unit)
    (cmdO : IndexCommandSpec → Except String Unit) :
    List String × Except String Unit :=
  let _dropped := drop_vector_indexes vector_field listO dropO
  match cmdO (diskannIndexCommand vector_field dimensions) with
  | .ok _ => (["DiskANN vector index created successfully"], .ok ())
  | .error e =>
      (("Error creating DiskANN vector index: " ++ e) ::
          (if containsSubstring tierLimitationMsg e then diskannRemediation else []),
        .error e)

/-- `hnsw.create_hnsw_vector_index`: returns the printed log and what
propagates to the caller (no tier check in this variant). -/
def create_hnsw_vector_index (vector_field : String) (dimensions : Nat)
    (listO : Except String (List IndexDescr))
    (dropO : String → Except String Unit)
    (cmdO : IndexCommandSpec → Except String Unit) :
    List String × Except String Unit :=
  let _dropped := drop_vector_indexes vector_field listO dropO
  match cmdO (hnswIndexCommand vector_field dimensions) with
  | .ok _ => (["HNSW vector index created successfully"], .ok ())
  | .error e => (["Error creating HNSW vector index: " ++ e], .error e)

/-- C7, counterexample to the claim as stated: on a create failure whose
message indicates a tier limitation, the HNSW creator (one of the two
functions the claim covers) prints only the bare error line and no
remediation guidance at all — the message is not augmented. -/
theorem create_hnsw_tier_error_cex :
    containsSubstring tierLimitationMsg
        "Index type vector-hnsw is not enabled for this cluster tier" = true ∧
      (create_hnsw_vector_index "DescriptionVector" 1536 (Except.ok [])
            (fun _ => Except.ok ())
            (fun _ => Except.error
              "Index type vector-hnsw is not enabled for this cluster tier")).1
        = ["Error creating HNSW vector index: Index type vector-hnsw is not enabled for this cluster tier"] ∧
      (create_hnsw_vector_index "DescriptionVector" 1536 (Except.ok [])
            (fun _ => Except.ok ())
            (fun _ => Except.error
              "Index type vector-hnsw is not enabled for this cluster tier")).1.all
          (fun line => !(diskannRemediation.contains line)) = true := by
  refine ⟨by decide, rfl, by decide⟩

/-- C7 (amended): when the create-index command fails, both creators
re-raise the error verbatim (unaltered identity); the DiskANN creator
additionally prints the remediation guidance (different algorithm or tier
upgrade) exactly when the error message indicates the tier limitation,
leaving the propagated error untouched; the HNSW creator prints no
remediation. -/
theorem create_index_error_propagation (vector_field : String)
    (dimensions : Nat) (listO : Except String (List IndexDescr))
    (dropO : String → Except String Unit)
    (cmdO : IndexCommandSpec → Except String Unit) (e : String)
    (hd : cmdO (diskannIndexCommand vector_field dimensions) = .error e)
    (hh : cmdO (hnswIndexCommand vector_field dimensions) = .error e) :
    (create_diskann_vector_index vector_field dimensions listO dropO cmdO).2
        = .error e ∧
      (containsSubstring tierLimitationMsg e = true →
        (create_diskann_vector_index vector_field dimensions listO dropO cmdO).1
          = ("Error creating DiskANN vector index: " ++ e) :: diskannRemediation) ∧
      (containsSubstring tierLimitationMsg e = false →
        (create_diskann_vector_index vector_field dimensions listO dropO cmdO).1
          = [("Error creating DiskANN vector index: " ++ e)]) ∧
      (create_hnsw_vector_index vector_field dimensions listO dropO cmdO).2
        = .error e ∧
      (create_hnsw_vector_index vector_field dimensions listO dropO cmdO).1
        = ["Error creating HNSW vector index: " ++ e] := by
  simp only [create_diskann_vector_index, create_hnsw_vector_index, hd, hh]
  refine ⟨trivial, ?_, ?_, trivial, trivial⟩
  · intro ht
    simp [ht]
  · intro ht
    simp [ht]

/-- Witness for `create_index_error_propagation`: a concrete
tier-limitation failure; the DiskANN log gains the remediation lines and
both creators re-raise the very same message. -/
theorem create_index_error_propagation_witness :
    (create_diskann_vector_index "DescriptionVector" 1536 (Except.ok [])
          (fun _ => Except.ok ())
          (fun _ => Except.error "DiskANN is not enabled for this cluster tier")).2
        = Except.error "DiskANN is not enabled for this cluster tier" ∧
      (create_diskann_vector_index "DescriptionVector" 1536 (Except.ok [])
            (fun _ => Except.ok ())
            (fun _ => Except.error "DiskANN is not enabled for this cluster tier")).1
        = ("Error creating DiskANN vector index: DiskANN is not enabled for this cluster tier")
            :: diskannRemediation ∧
      (create_hnsw_vector_index "DescriptionVector" 1536 (Except.ok [])
            (fun _ => Except.ok ())
            (fun _ => Except.error "DiskANN is not enabled for this cluster tier")).2
        = Except.error "DiskANN is not enabled for this cluster tier" := by
  have h := create_index_error_propagation "DescriptionVector" 1536 (Except.ok [])
    (fun _ => Except.ok ())
    (fun _ => Except.error "DiskANN is not enabled for this cluster tier")
    "DiskANN is not enabled for this cluster tier" rfl rfl
  exact ⟨h.1, h.2.1 (by decide), h.2.2.2.1⟩

/-! ## Vector search: `hnsw.perform_hnsw_vector_search` (lines 58–107),
`diskann.perform_diskann_vector_search` (lines 92–167),
`ivf.perform_ivf_vector_search` (lines 80–158)

Each function embeds the query text (modelled by `embedO`, the outcome of
`embeddings.create(...).data[0].embedding`), builds an aggregation
pipeline — a `$search/cosmosSearch` stage holding exactly the query
vector, the target field path and `k`, followed by the file's `$project`
stage — and returns `list(collection.aggregate(pipeline))` as is.  The
aggregation call is the oracle `agg`; `R` is the store's result row type.
The `ef_search` and `num_probes` parameters appear in the Python
signatures but never in the pipeline. -/

inductive PipelineStage (V : Type) where
  | search (vector : List V) (path : String) (k : Nat)
  | projectDocScore
  | projectFieldsScore (fields : List String)
deriving DecidableEq, Repr

/-- Pipeline of `hnsw.py` lines 78–102 (`$project` keeps `$$ROOT` plus the
score). -/
def hnswPipeline {V : Type} (qv : List V) (vector_field : String)
    (top_k : Nat) : List (PipelineStage V) :=
  [.search qv vector_field top_k, .projectDocScore]

/-- Pipeline of `diskann.py` lines 130–159. -/
def diskannPipeline {V : Type} (qv : List V) (vector_field : String)
    (top_k : Nat) : List (PipelineStage V) :=
  [.search qv vector_field top_k,
    .projectFieldsScore
      ["HotelId", "HotelName", "Description", "Category", "Rating", "Address"]]

/-- Pipeline of `ivf.py` lines 119–150. -/
def ivfPipeline {V : Type} (qv : List V) (vector_field : String)
    (top_k : Nat) : List (PipelineStage V) :=
  [.search qv vector_field top_k,
    .projectFieldsScore
      ["HotelId", "HotelName", "Description", "Category", "Rating", "Address",
        "Tags", "ParkingIncluded"]]

/-- `hnsw.perform_hnsw_vector_search` (`ef_search` is accepted and unused,
exactly as in the source; errors propagate after being printed). -/
def perform_hnsw_vector_search {V R : Type} (embedO : Except String (List V))
    (agg : List (PipelineStage V) → Except String (List R))
    (vector_field : String) (top_k : Nat) (ef_search : Nat) :
    Except String (List R) :=
  match embedO with
  | .error e => .error e
  | .ok qv => agg (hnswPipeline qv vector_field top_k)

/-- `diskann.perform_diskann_vector_search`. -/
def perform_diskann_vector_search {V R : Type}
    (embedO : Except String (List V))
    (agg : List (PipelineStage V) → Except String (List R))
    (vector_field : String) (top_k : Nat) : Except String (List R) :=
  match embedO with
  | .error e => .error e
  | .ok qv => agg (diskannPipeline qv vector_field top_k)

/-- `ivf.perform_ivf_vector_search` (`num_probes` is accepted and unused
outside of prints, exactly as in the source). -/
def perform_ivf_vector_search {V R : Type} (embedO : Except String (List V))
    (agg : List (PipelineStage V) → Except String (List R))
    (vector_field : String) (top_k : Nat) (num_probes : Nat) :
    Except String (List R) :=
  match embedO with
  | .error e => .error e
  | .ok qv => agg (ivfPipeline qv vector_field top_k)

/-- C8: whatever result sequence the store's aggregation returns for the
constructed pipeline, the search functions hand it back exactly as
received — no re-sorting, re-ordering, filtering or truncation. -/
theorem vector_search_returns_store_order {V R : Type} (qv : List V)
    (agg_h agg_d : List (PipelineStage V) → Except String (List R))
    (vector_field : String) (top_k ef_search : Nat) (rs rs' : List R)
    (hh : agg_h (hnswPipeline qv vector_field top_k) = .ok rs)
    (hd : agg_d (diskannPipeline qv vector_field top_k) = .ok rs') :
    perform_hnsw_vector_search (.ok qv) agg_h vector_field top_k ef_search
        = .ok rs ∧
      perform_diskann_vector_search (.ok qv) agg_d vector_field top_k
        = .ok rs' := by
  exact ⟨by simp [perform_hnsw_vector_search, hh],
    by simp [perform_diskann_vector_search, hd]⟩

/-- Witness for `vector_search_returns_store_order`: the store answers
with the deliberately unsorted row list `[3, 1, 2]`, and both searches
return it verbatim. -/
theorem vector_search_returns_store_order_witness :
    perform_hnsw_vector_search (V := Nat) (Except.ok [5])
          (fun _ => Except.ok [3, 1, 2]) "DescriptionVector" 3 16
        = Except.ok [3, 1, 2] ∧
      perform_diskann_vector_search (V := Nat) (Except.ok [5])
          (fun _ => Except.ok [3, 1, 2]) "DescriptionVector" 3
        = Except.ok [3, 1, 2] :=
  vector_search_returns_store_order [5] (fun _ => Except.ok [3, 1, 2])
    (fun _ => Except.ok [3, 1, 2]) "DescriptionVector" 3 16 [3, 1, 2] [3, 1, 2]
    rfl rfl

/-- C10: the search-time parameters are dead: two invocations of the HNSW
search differing only in `ef_search`, or of the IVF search differing only
in `num_probes`, build the same request — the `$search` stage holds only
the query vector, the field path and `k = top_k` — and hence return the
same result for the same store. -/
theorem search_time_params_no_effect {V R : Type}
    (embedO : Except String (List V))
    (agg : List (PipelineStage V) → Except String (List R))
    (vector_field : String) (top_k ef1 ef2 np1 np2 : Nat) (qv : List V) :
    hnswPipeline qv vector_field top_k
        = [PipelineStage.search qv vector_field top_k,
            PipelineStage.projectDocScore] ∧
      perform_hnsw_vector_search embedO agg vector_field top_k ef1
        = perform_hnsw_vector_search embedO agg vector_field top_k ef2 ∧
      perform_ivf_vector_search embedO agg vector_field top_k np1
        = perform_ivf_vector_search embedO agg vector_field top_k np2 :=
  ⟨rfl, rfl, rfl⟩
